import Mathlib

/-!
Verification development for the sandman BED/Tabix reader library.

The Rust sources are shallowly embedded: machine integers become `Nat`
(with explicit masks/shifts where the code uses them), fallible code
returns `Option`/`Except`, and the stateful reader becomes explicit
state passing.  Byte strings are `List Nat`, text is `List Char`/`String`.
-/

namespace Sandman

/-- Rust's inclusive range `a..=b` over unsigned integers, as the list of
its elements in increasing order (empty when `b < a`). -/
def rangeIncl (a b : Nat) : List Nat :=
  (List.range (b + 1 - a)).map (a + ·)

theorem mem_rangeIncl {a b x : Nat} : x ∈ rangeIncl a b ↔ a ≤ x ∧ x ≤ b := by
  unfold rangeIncl
  simp only [List.mem_map, List.mem_range]
  constructor
  · rintro ⟨i, hi, rfl⟩
    omega
  · rintro ⟨h1, h2⟩
    exact ⟨x - a, by omega, by omega⟩

/-! ## Tabix binning query (`Reader::region_bins`, src/tabix/mod.rs) -/

/-- `MAX_POS` from `Reader::region_bins`: maximum coordinate, `1 << 29`. -/
def MAX_POS : Nat := 1 <<< 29

/-- The two reassignments of `end` in `Reader::region_bins`:
`let mut end = if end > 0 { end - 1 } else { 0 };` followed by the clamp
`if end >= MAX_POS { end = MAX_POS - 1 }`. -/
def tbxClamp (e0 : Nat) : Nat :=
  if MAX_POS ≤ (if 0 < e0 then e0 - 1 else 0) then MAX_POS - 1
  else if 0 < e0 then e0 - 1 else 0

/-- Embedding of `Reader::region_bins` (src/tabix/mod.rs).  The Rust code
takes `start, end: u32`; arithmetic never overflows `u32` (the guard keeps
`start < 2^29` and the clamp keeps `e < 2^29`), so `Nat` models it exactly.
`BIN_OFFSETS = [0, 1, 9, 73, 585, 4681]` is inlined as in the source loops. -/
def region_bins (start e0 : Nat) : List Nat :=
  if MAX_POS ≤ start then []
  else
    [0]
      ++ rangeIncl (1 + (start >>> 26)) (1 + (tbxClamp e0 >>> 26))
      ++ rangeIncl (9 + (start >>> 23)) (9 + (tbxClamp e0 >>> 23))
      ++ rangeIncl (73 + (start >>> 20)) (73 + (tbxClamp e0 >>> 20))
      ++ rangeIncl (585 + (start >>> 17)) (585 + (tbxClamp e0 >>> 17))
      ++ rangeIncl (4681 + (start >>> 14)) (4681 + (tbxClamp e0 >>> 14))

/-! ## Tabix index loader (`Reader::read_tabix`, src/tabix/mod.rs)

The loader first concatenates all decompressed BGZF blocks of the `.tbi`
input (the BGZF codec is an external collaborator); the embedding takes the
concatenated byte list directly.  Bytes are `Nat`s below 256. -/

/-- `std::io::Cursor<Vec<u8>>`: the byte vector plus the read position. -/
structure ByteCursor where
  bytes : List Nat
  pos : Nat
deriving DecidableEq, Repr

/-- `Read::read_exact` on the cursor: take exactly `n` bytes or fail. -/
def readExact (n : Nat) (c : ByteCursor) : Option (List Nat × ByteCursor) :=
  if c.pos + n ≤ c.bytes.length then
    some ((c.bytes.drop c.pos).take n, ⟨c.bytes, c.pos + n⟩)
  else none

/-- Little-endian value of a byte list. -/
def leNat (l : List Nat) : Nat := l.foldr (fun b acc => b + 256 * acc) 0

/-- `read_u32::<LittleEndian>`. -/
def readU32 (c : ByteCursor) : Option (Nat × ByteCursor) :=
  match readExact 4 c with
  | some (l, c) => some (leNat l, c)
  | none => none

/-- `read_u64::<LittleEndian>`. -/
def readU64 (c : ByteCursor) : Option (Nat × ByteCursor) :=
  match readExact 8 c with
  | some (l, c) => some (leNat l, c)
  | none => none

/-- `read_i32::<LittleEndian>`: the 4 little-endian bytes interpreted as a
two's-complement signed 32-bit integer. -/
def readI32 (c : ByteCursor) : Option (Int × ByteCursor) :=
  match readExact 4 c with
  | some (l, c) =>
    some (if leNat l < 2 ^ 31 then (leNat l : Int) else (leNat l : Int) - 2 ^ 32, c)
  | none => none

/-- Rust's `as usize` cast of an `i32` (sign-extend, reinterpret as 64-bit). -/
def i32AsUsize (v : Int) : Nat := (v % (2 ^ 64 : Int)).toNat

/-- `Header` (src/tabix/mod.rs). -/
structure TbxHeader where
  n_ref : Int
  col_seq : Int
  col_beg : Int
  col_end : Int
  meta : Int
  skip : Int
deriving DecidableEq, Repr

/-- `Region` (src/tabix/mod.rs): chunk list of `[start, end)` virtual offsets. -/
structure TbxRegion where
  chunks : List (Nat × Nat)
deriving DecidableEq, Repr

/-- `Reference` (src/tabix/mod.rs).  The source's `HashMap<u32, Region>` is
modelled as an association list whose `insert` overwrites an existing key in
place; `HashMap` iteration order is arbitrary, the model fixes first-insertion
order (no theorem below depends on the iteration order of distinct bins). -/
structure TbxReference where
  bins : List (Nat × TbxRegion)
deriving DecidableEq, Repr

/-- `tabix::Reader` (src/tabix/mod.rs).  `seqnames` is an
`indexset::BTreeSet<String>`: its iteration order is SORTED order, modelled
as a sorted, deduplicated list. -/
structure TabixReader where
  header : TbxHeader
  seqnames : List String
  refIndices : List TbxReference
deriving DecidableEq, Repr

/-- `HashMap::insert`: overwrite in place or append. -/
def hashInsert (k : Nat) (v : TbxRegion) : List (Nat × TbxRegion) → List (Nat × TbxRegion)
  | [] => [(k, v)]
  | (k0, v0) :: t => if k0 = k then (k, v) :: t else (k0, v0) :: hashInsert k v t

/-- `HashMap::get`. -/
def hashGet (k : Nat) : List (Nat × TbxRegion) → Option TbxRegion
  | [] => none
  | (k0, v0) :: t => if k0 = k then some v0 else hashGet k t

/-- Rust `String` ordering (byte-lexicographic; on ASCII this is
lexicographic on code points), as a boolean on char lists. -/
def charListLt : List Char → List Char → Bool
  | [], [] => false
  | [], _ :: _ => true
  | _ :: _, [] => false
  | a :: s, b :: t =>
    if a.toNat < b.toNat then true
    else if b.toNat < a.toNat then false
    else charListLt s t

/-- Rust `String` ordering on Lean strings. -/
def stringLt (a b : String) : Bool := charListLt a.data b.data

/-- Insertion into a `BTreeSet<String>` model: keep the list strictly sorted
in Rust `String` order, drop duplicates. -/
def btreeInsert (s : String) : List String → List String
  | [] => [s]
  | a :: t =>
    if stringLt s a then s :: a :: t
    else if s = a then a :: t
    else a :: btreeInsert s t

/-- `Iterator::position` on a string list (`seqnames.iter().position(|s| s == tid)`),
also `StringInterner::get` (symbols are insertion indices). -/
def position (tid : String) : List String → Option Nat
  | [] => none
  | a :: t => if a = tid then some 0 else (position tid t).map (· + 1)

/-- `from_utf8_unchecked` on ASCII bytes. -/
def bytesToString (bs : List Nat) : String := String.mk (bs.map Char.ofNat)

/-- `str::split("\0")` at the byte level. -/
def splitOnZero : List Nat → List (List Nat)
  | [] => [[]]
  | b :: t =>
    if b = 0 then [] :: splitOnZero t
    else
      match splitOnZero t with
      | [] => [[b]]
      | h :: r => (b :: h) :: r

/-- The NUL-split name list with empty tokens discarded
(`seqnames.split("\0").filter(|s| s != &"")`), in file order. -/
def tbiNameList (nameBytes : List Nat) : List String :=
  ((splitOnZero nameBytes).map bytesToString).filter (· ≠ "")

/-- The chunk-list loop of `read_tabix`: `n_chunk` pairs of `u64`. -/
def readChunks : Nat → ByteCursor → Option (List (Nat × Nat) × ByteCursor)
  | 0, bs => some ([], bs)
  | n + 1, bs => do
    let (beg, bs) ← readU64 bs
    let (cend, bs) ← readU64 bs
    let (rest, bs) ← readChunks n bs
    some ((beg, cend) :: rest, bs)

/-- The bin loop of `read_tabix`: `n_bin` entries inserted into the map. -/
def readBins : Nat → List (Nat × TbxRegion) → ByteCursor →
    Option (List (Nat × TbxRegion) × ByteCursor)
  | 0, m, bs => some (m, bs)
  | n + 1, m, bs => do
    let (bin, bs) ← readU32 bs
    let (nChunk, bs) ← readI32 bs
    let (chunks, bs) ← readChunks nChunk.toNat bs
    readBins n (hashInsert bin ⟨chunks⟩ m) bs

/-- The linear-interval loop of `read_tabix`: `n_intv` `u64`s, read and dropped. -/
def skipIntv : Nat → ByteCursor → Option ByteCursor
  | 0, bs => some bs
  | n + 1, bs => do
    let (_, bs) ← readU64 bs
    skipIntv n bs

/-- The per-reference loop of `read_tabix`. -/
def readRefs : Nat → ByteCursor → Option (List TbxReference × ByteCursor)
  | 0, bs => some ([], bs)
  | n + 1, bs => do
    let (nBin, bs) ← readI32 bs
    let (bins, bs) ← readBins nBin.toNat [] bs
    let (nIntv, bs) ← readI32 bs
    let bs ← skipIntv nIntv.toNat bs
    let (rest, bs) ← readRefs n bs
    some (⟨bins⟩ :: rest, bs)

/-- Embedding of `Reader::read_tabix` (src/tabix/mod.rs) on the concatenated
decompressed bytes.  `magic` is read but not validated, exactly as in the
source.  The names are collected into a `BTreeSet` (`btreeInsert` fold), NOT
kept in file order.  The source's final debug loop indexes `ref_indices[0]`
unconditionally, so an index with no references panics (`none` here). -/
def read_tabix (bytes : List Nat) : Option TabixReader := do
  let (_magic, bs) ← readExact 4 ⟨bytes, 0⟩
  let (n_ref, bs) ← readI32 bs
  let (_format, bs) ← readI32 bs
  let (col_seq, bs) ← readI32 bs
  let (col_beg, bs) ← readI32 bs
  let (col_end, bs) ← readI32 bs
  let (meta, bs) ← readI32 bs
  let (skip, bs) ← readI32 bs
  let (l_nm, bs) ← readI32 bs
  let (nameBytes, bs) ← readExact (i32AsUsize l_nm) bs
  let seqnames := (tbiNameList nameBytes).foldl (fun acc s => btreeInsert s acc) []
  let (refIndices, _) ← readRefs n_ref.toNat bs
  if refIndices.isEmpty then none
  else some ⟨⟨n_ref, col_seq, col_beg, col_end, meta, skip⟩, seqnames, refIndices⟩

/-- Embedding of `Reader::offsets_for_tid` (src/tabix/mod.rs).  Outer `none`
models the panic of `&self.ref_indices[idx]` when `idx` is out of bounds;
`some none` is the source's `Ok(None)` (chromosome missing); chunks of every
bin of the selected reference are concatenated. -/
def offsets_for_tid (r : TabixReader) (tid : String) : Option (Option (List (Nat × Nat))) :=
  match position tid r.seqnames with
  | none => some none
  | some idx =>
    match r.refIndices[idx]? with
    | none => none
    | some ref => some (some (ref.bins.flatMap (fun b => b.2.chunks)))

/-- Embedding of `Reader::offsets_for_tid_region` (src/tabix/mod.rs): chunks
of the reference's bins that `region_bins` selects, in bin-query order. -/
def offsets_for_tid_region (r : TabixReader) (tid : String) (start e0 : Nat) :
    Option (Option (List (Nat × Nat))) :=
  match position tid r.seqnames with
  | none => some none
  | some idx =>
    match r.refIndices[idx]? with
    | none => none
    | some ref =>
      some (some ((region_bins start e0).flatMap (fun bin =>
        match hashGet bin ref.bins with
        | some region => region.chunks
        | none => [])))

/-- The clamped last covered position named by the spec's binning-query
sentence: `e = min(end-1, MAX_POS-1)`, with `e = 0` when `end == 0`. -/
def binQueryEnd (e0 : Nat) : Nat :=
  if e0 = 0 then 0 else min (e0 - 1) (2 ^ 29 - 1)

/-- Little-endian byte encodings used to build concrete `.tbi` images. -/
def le32 (v : Nat) : List Nat :=
  [v % 256, v / 256 % 256, v / 65536 % 256, v / 16777216 % 256]

/-- 8-byte little-endian encoding. -/
def le64 (v : Nat) : List Nat := le32 (v % 4294967296) ++ le32 (v / 4294967296)

/-- Name region of the concrete `.tbi` image: `"chr2\0chr1\0"` — file order
puts `chr2` first. -/
def tbiNamesC1 : List Nat := [99, 104, 114, 50, 0, 99, 104, 114, 49, 0]

/-- A complete `.tbi` image (after BGZF decompression) with two references in
file order `chr2, chr1`; reference 0 (`chr2`) holds bin 0 with chunk `[1,2)`,
reference 1 (`chr1`) holds bin 0 with chunk `[3,4)`. -/
def tbiBytesC1 : List Nat :=
  [84, 66, 73, 1] ++ le32 2 ++ le32 0 ++ le32 1 ++ le32 2 ++ le32 3
    ++ le32 35 ++ le32 0 ++ le32 10
    ++ tbiNamesC1
    ++ le32 1 ++ le32 0 ++ le32 1 ++ le64 1 ++ le64 2 ++ le32 0
    ++ le32 1 ++ le32 0 ++ le32 1 ++ le64 3 ++ le64 4 ++ le32 0

/-- The parse of `tbiBytesC1`: note `seqnames` comes out SORTED
(`["chr1", "chr2"]`) while `refIndices` stays in file order. -/
def tbxC1 : TabixReader :=
  ⟨⟨2, 1, 2, 3, 35, 0⟩, ["chr1", "chr2"],
    [⟨[(0, ⟨[(1, 2)]⟩)]⟩, ⟨[(0, ⟨[(3, 4)]⟩)]⟩]⟩

/-- C1: FALSE of the code — for a loaded tabix index, the reference id used
to pick a `Reference` is NOT the queried name's index in the NUL-split name
list in file order.  `read_tabix` collects the names into a sorted
`BTreeSet`, so on the image `tbiBytesC1` (file order `chr2, chr1`) the query
for `chr2` resolves to sorted position 1 and returns reference 1's chunks
`[3,4)`, while the file-order reference of `chr2` is reference 0 with chunks
`[1,2)`. -/
theorem tabix_tid_order_bug :
    read_tabix tbiBytesC1 = some tbxC1 ∧
    tbiNameList tbiNamesC1 = ["chr2", "chr1"] ∧
    offsets_for_tid tbxC1 "chr2" = some (some [(3, 4)]) ∧
    offsets_for_tid_region tbxC1 "chr2" 0 1 = some (some [(3, 4)]) ∧
    (tbxC1.refIndices[0]?).map (fun ref => ref.bins.flatMap (fun b => b.2.chunks))
      = some [(1, 2)] ∧
    [((3 : Nat), (4 : Nat))] ≠ [(1, 2)] := by
  refine ⟨?_, ?_, ?_, ?_, ?_, ?_⟩ <;> decide

/-- C3: the binning query emits no bins when `start ≥ 2^29`; otherwise it
emits exactly bin 0 plus, for each level `L` in `1..=5`, every bin in
`BIN_OFFSETS[L] + (start >> shifts[L]) ..= BIN_OFFSETS[L] + (e >> shifts[L])`
with `e = min(end-1, 2^29-1)` (`e = 0` when `end = 0`),
`BIN_OFFSETS = [0,1,9,73,585,4681]`, `shifts = [26,23,20,17,14]`. -/
theorem region_bins_correct (start e0 b : Nat) :
    (2 ^ 29 ≤ start → region_bins start e0 = []) ∧
    (start < 2 ^ 29 →
      (b ∈ region_bins start e0 ↔
        b = 0 ∨
        (1 + (start >>> 26) ≤ b ∧ b ≤ 1 + (binQueryEnd e0 >>> 26)) ∨
        (9 + (start >>> 23) ≤ b ∧ b ≤ 9 + (binQueryEnd e0 >>> 23)) ∨
        (73 + (start >>> 20) ≤ b ∧ b ≤ 73 + (binQueryEnd e0 >>> 20)) ∨
        (585 + (start >>> 17) ≤ b ∧ b ≤ 585 + (binQueryEnd e0 >>> 17)) ∨
        (4681 + (start >>> 14) ≤ b ∧ b ≤ 4681 + (binQueryEnd e0 >>> 14)))) := by
  have hmp : MAX_POS = 2 ^ 29 := by decide
  have he : tbxClamp e0 = binQueryEnd e0 := by
    unfold tbxClamp binQueryEnd
    rw [hmp]
    split_ifs <;> omega
  constructor
  · intro h
    unfold region_bins
    rw [if_pos (by rw [hmp]; exact h)]
  · intro h
    unfold region_bins
    rw [if_neg (by rw [hmp]; omega), he]
    simp only [List.cons_append, List.nil_append, List.mem_cons, List.mem_append,
      mem_rangeIncl]
    tauto

/-- Witness for C3 at concrete inputs: `start = 2^29` yields no bins, and
bin `4683` is produced for the query `[33000, 40000)`. -/
theorem region_bins_correct_witness :
    region_bins (2 ^ 29) 7 = [] ∧ (4683 : Nat) ∈ region_bins 33000 40000 :=
  ⟨(region_bins_correct (2 ^ 29) 7 0).1 (le_refl _),
   ((region_bins_correct 33000 40000 4683).2 (by norm_num)).mpr (by decide)⟩

/-! ## Symbol store (`TidStore`, src/store/interning.rs)

`TidStore` wraps a `string_interner::StringInterner`; symbols are dense
indices in insertion order, modelled by positions in a string list.  Both
`find` and `intern` first apply `name.to_lowercase().trim()`. -/

/-- Rust `char::to_lowercase` restricted to ASCII (reference names are
ASCII; Unicode full lowercasing agrees with this on ASCII input). -/
def lowerChar (c : Char) : Char :=
  if 'A' ≤ c ∧ c ≤ 'Z' then Char.ofNat (c.toNat + 32) else c

/-- Rust `char::is_whitespace` restricted to ASCII (the six ASCII
White_Space code points). -/
def isRustWhitespace (c : Char) : Bool :=
  c = ' ' ∨ c = '\t' ∨ c = '\n' ∨ c = '\r' ∨ c = '\x0b' ∨ c = '\x0c'

/-- Rust `str::trim` on a char list. -/
def trimChars (l : List Char) : List Char :=
  ((l.dropWhile isRustWhitespace).reverse.dropWhile isRustWhitespace).reverse

/-- `name.to_lowercase().trim()` as applied by `TidStore::find` and
`TidStore::intern`. -/
def normalizeTid (s : String) : String :=
  String.mk (trimChars (s.data.map lowerChar))

/-- `TidStore` (src/store/interning.rs): the interner's strings in
insertion order; a symbol is an index into this list. -/
structure TidStore where
  strings : List String
deriving DecidableEq, Repr

/-- `TidStore::find`: `self.interner.get(name.to_lowercase().trim())`. -/
def TidStore.find (st : TidStore) (name : String) : Option Nat :=
  position (normalizeTid name) st.strings

/-- `TidStore::intern`: `self.interner.get_or_intern(name.to_lowercase().trim())`
— return the existing symbol or append the (normalized) string. -/
def TidStore.intern (st : TidStore) (name : String) : Nat × TidStore :=
  match position (normalizeTid name) st.strings with
  | some i => (i, st)
  | none => (st.strings.length, ⟨st.strings ++ [normalizeTid name]⟩)

/-- `TidStore::resolve`: the interned string of a symbol. -/
def TidStore.resolve (st : TidStore) (sym : Nat) : Option String :=
  st.strings[sym]?

theorem position_getElem {l : List String} {x : String} {i : Nat}
    (h : position x l = some i) : l[i]? = some x := by
  induction l generalizing i with
  | nil => simp [position] at h
  | cons a t ih =>
    by_cases hax : a = x
    · subst hax
      simp [position] at h
      subst h
      simp
    · simp [position, hax] at h
      obtain ⟨j, hj, rfl⟩ := h
      simpa using ih hj

/-- C7: FALSE as stated — interning then resolving returns the
lowercased-and-trimmed name, not the original.  Concretely, interning
`"Chr1"` into an empty store and resolving the returned symbol yields
`"chr1"`, not `"Chr1"`. -/
theorem intern_resolve_not_id :
    ¬ ((TidStore.intern ⟨[]⟩ "Chr1").2.resolve (TidStore.intern ⟨[]⟩ "Chr1").1
        = some "Chr1") := by
  decide

/-- C7 (amended): for every store state and every name `s`,
`resolve (intern s) = some (trim (lowercase s))`; in particular the
round-trip returns the original string exactly when `s` is already
lowercase with no surrounding whitespace. -/
theorem intern_resolve_normalized (st : TidStore) (s : String) :
    (st.intern s).2.resolve (st.intern s).1 = some (normalizeTid s) := by
  unfold TidStore.intern TidStore.resolve
  cases hp : position (normalizeTid s) st.strings with
  | some i => simpa using position_getElem hp
  | none =>
    simp only
    rw [List.getElem?_append_right (le_refl _)]
    simp

/-! ## BGZF byte gathering (`Reader::read_bgzf_bytes_for_region` and
`Reader::read_bgzf_subblock`, src/bed/reader.rs)

`readAt k` models "seek to compressed offset `k`, then `read_bgzf_block`":
`none` covers both `Err(_)` and `Ok(None)` (the `if let Ok(Some(block))`
guard in `read_bgzf_subblock` appends nothing in those cases). -/

/-- `u64::MAX`, the sentinel upper bound for non-final blocks. -/
def U64MAX : Nat := 2 ^ 64 - 1

/-- Embedding of `Reader::read_bgzf_subblock` (src/bed/reader.rs): clamp
`start`/`end` to the decompressed block length and append the slice when
non-empty. -/
def read_bgzf_subblock (blockOpt : Option (List Nat)) (start e0 : Nat)
    (buf : List Nat) : List Nat :=
  match blockOpt with
  | none => buf
  | some block =>
    let s := min start block.length
    let e := min e0 block.length
    if s < e then buf ++ (block.drop s).take (e - s) else buf

/-- Embedding of the per-chunk body of `Reader::read_bgzf_bytes_for_region`
(src/bed/reader.rs) for one `offset` range `[a, b)` of the `region` slice:
skip when `start >= end`, else visit every compressed offset in
`(a >> 16) ..= (b >> 16)` and take the subblock with
`start = inner(a)` on the first block else `0`, and `end = inner(b)` on the
last block else `u64::MAX`.  Within one chunk the iterated offsets strictly
increase, so the `current_block` seek cache always misses and every
iteration seeks then reads, which is what `readAt` models. -/
def read_bgzf_chunk (readAt : Nat → Option (List Nat)) (a b : Nat)
    (buf : List Nat) : List Nat :=
  if b ≤ a then buf
  else
    (rangeIncl (a >>> 16) (b >>> 16)).foldl
      (fun buf k =>
        read_bgzf_subblock (readAt k)
          (if k = a >>> 16 then a &&& 0xFFFF else 0)
          (if k = b >>> 16 then b &&& 0xFFFF else U64MAX)
          buf)
      buf

theorem subblock_append (o : Option (List Nat)) (s e : Nat) (buf : List Nat) :
    read_bgzf_subblock o s e buf = buf ++ read_bgzf_subblock o s e [] := by
  cases o with
  | none => simp [read_bgzf_subblock]
  | some blk =>
    simp only [read_bgzf_subblock]
    split_ifs <;> simp

theorem foldl_subblock (readAt : Nat → Option (List Nat)) (sf ef : Nat → Nat) :
    ∀ (l : List Nat) (buf : List Nat),
      l.foldl (fun buf k => read_bgzf_subblock (readAt k) (sf k) (ef k) buf) buf
        = buf ++ l.flatMap (fun k => read_bgzf_subblock (readAt k) (sf k) (ef k) []) := by
  intro l
  induction l with
  | nil => simp
  | cons k t ih =>
    intro buf
    rw [List.foldl_cons, ih, subblock_append]
    simp

theorem slice_clamp (blk : List Nat) (s e : Nat) :
    (if min s blk.length < min e blk.length then
      (blk.drop (min s blk.length)).take (min e blk.length - min s blk.length)
     else ([] : List Nat))
      = (blk.drop s).take (e - s) := by
  by_cases hs : s < blk.length
  · have hmin : min s blk.length = s := by omega
    rw [hmin]
    by_cases he : e ≤ blk.length
    · have hemin : min e blk.length = e := by omega
      rw [hemin]
      by_cases hse : s < e
      · rw [if_pos hse]
      · rw [if_neg hse]
        have : e - s = 0 := by omega
        simp [this]
    · have hemin : min e blk.length = blk.length := by omega
      rw [hemin, if_pos (by omega)]
      rw [List.take_of_length_le (by simp only [List.length_drop]; omega),
        List.take_of_length_le (by simp only [List.length_drop]; omega)]
  · have hmin : min s blk.length = blk.length := by omega
    rw [hmin]
    have : blk.drop s = [] := List.drop_eq_nil_of_le (by omega)
    rw [this]
    have : ¬ (blk.length < min e blk.length) := by omega
    simp [this]

/-- C4: for a virtual-offset range `[a, b)`, nothing is gathered when
`a ≥ b`; otherwise the gathered bytes are the concatenation, over every
compressed block offset `k` in `(a >> 16) ..= (b >> 16)`, of the decompressed
block's slice from `inner(a)` (if `k` is the first block, else `0`) to
`inner(b)` (if `k` is the last block, else the full block length), with
`inner(x) = x mod 2^16` and out-of-range bounds clamped. -/
theorem read_bgzf_chunk_correct (readAt : Nat → Option (List Nat)) (a b : Nat)
    (hlen : ∀ k blk, readAt k = some blk → blk.length < 2 ^ 64) :
    (b ≤ a → read_bgzf_chunk readAt a b [] = []) ∧
    (a < b → read_bgzf_chunk readAt a b [] =
      (rangeIncl (a >>> 16) (b >>> 16)).flatMap (fun k =>
        match readAt k with
        | none => []
        | some blk =>
          (blk.drop (if k = a >>> 16 then a % 65536 else 0)).take
            ((if k = b >>> 16 then b % 65536 else blk.length)
              - (if k = a >>> 16 then a % 65536 else 0)))) := by
  constructor
  · intro h
    unfold read_bgzf_chunk
    rw [if_pos h]
  · intro h
    unfold read_bgzf_chunk
    rw [if_neg (by omega), foldl_subblock, List.nil_append]
    have hfun : ∀ k : Nat,
        read_bgzf_subblock (readAt k)
          (if k = a >>> 16 then a &&& 0xFFFF else 0)
          (if k = b >>> 16 then b &&& 0xFFFF else U64MAX) []
        = (match readAt k with
          | none => []
          | some blk =>
            (blk.drop (if k = a >>> 16 then a % 65536 else 0)).take
              ((if k = b >>> 16 then b % 65536 else blk.length)
                - (if k = a >>> 16 then a % 65536 else 0))) := by
      intro k
      have hand : ∀ x : Nat, x &&& 0xFFFF = x % 65536 := by
        intro x
        have : (0xFFFF : Nat) = 2 ^ 16 - 1 := by norm_num
        rw [this, Nat.and_pow_two_sub_one_eq_mod]
      cases hk : readAt k with
      | none => simp [read_bgzf_subblock]
      | some blk =>
        have hblk := hlen k blk hk
        simp only [read_bgzf_subblock, List.nil_append]
        rw [hand a, hand b, slice_clamp]
        by_cases hkb : k = b >>> 16
        · simp [hkb]
        · rw [if_neg hkb, if_neg hkb]
          have h1 : U64MAX - (if k = a >>> 16 then a % 65536 else 0)
              ≥ (blk.drop (if k = a >>> 16 then a % 65536 else 0)).length := by
            simp only [List.length_drop]
            have : a % 65536 < 65536 := Nat.mod_lt _ (by norm_num)
            unfold U64MAX
            split_ifs <;> omega
          have h2 : blk.length - (if k = a >>> 16 then a % 65536 else 0)
              ≥ (blk.drop (if k = a >>> 16 then a % 65536 else 0)).length := by
            simp only [List.length_drop]
            exact le_refl _
          rw [List.take_of_length_le h1, List.take_of_length_le h2]
    rw [funext hfun]

/-- A concrete block map for the C4 witness: decompressed blocks at
compressed offsets 0 and 1. -/
def readAtC4 (k : Nat) : Option (List Nat) :=
  if k = 0 then some [10, 11, 12] else if k = 1 then some [20, 21, 22] else none

/-- Witness for C4: the range from inner offset 1 of the block at 0 to inner
offset 2 of the block at 1 gathers the tail of the first block followed by
the first two bytes of the second. -/
theorem read_bgzf_chunk_correct_witness :
    read_bgzf_chunk readAtC4 1 65538 [] = [11, 12, 20, 21] := by
  have h := (read_bgzf_chunk_correct readAtC4 1 65538
    (by
      intro k blk hk
      have hcase : blk = [10, 11, 12] ∨ blk = [20, 21, 22] := by
        unfold readAtC4 at hk
        split_ifs at hk <;> simp_all
      rcases hcase with h | h <;> subst h <;> decide)).2 (by norm_num)
  rw [h]
  decide

/-! ## Reader facade (`Reader::read_lines_in_tid` /
`Reader::read_lines_in_tid_region` / `Reader::parse_records_from_bytes`,
src/bed/reader.rs)

The reader is generic over the record type `F: BedFields` and over the
BGZF byte source; accordingly the model abstracts `F::parse_into` as a
`parseStep` function (threading the shared `TidStore` resolver it interns
into) and `Self::read_bgzf_bytes_for_region` as `fetchBytes` (its per-chunk
behaviour is verified separately by `read_bgzf_chunk_correct`). -/

/-- A parsed `BedRecord`: interned reference symbol and the half-open
interval.  `stop` embeds the source's `end` field (a Lean keyword). -/
structure BedRec where
  tid : Nat
  start : Nat
  stop : Nat
deriving DecidableEq, Repr

/-- The `error::Error` variants reachable from the region-read paths. -/
inductive ReadErr where
  | PlainBedRegion
  | TabixNotOpen
  | BedMismatch
  | BedFormat
deriving DecidableEq, Repr

/-- Rust's `error::Result<T>` with the relevant error kinds. -/
inductive RResult (α : Type) where
  | ok : α → RResult α
  | error : ReadErr → RResult α
deriving DecidableEq, Repr

/-- The reader state relevant to region reads: container kind, optional
tabix index, BGZF byte gathering, resolver state, and the `F::parse_into`
dispatch. -/
structure BedReaderModel where
  isPlain : Bool
  index : Option TabixReader
  fetchBytes : List (Nat × Nat) → List Nat
  store : TidStore
  parseStep : TidStore → List Nat → Option (BedRec × List Nat × TidStore)

/-- The `while !cursor.is_empty()` loop of
`Reader::parse_records_from_bytes`: parse records until the cursor is
exhausted; a failing parse aborts.  Fuel (`bytes.length + 1`) stands for the
loop's termination through cursor consumption; exhausted fuel is conflated
with parse failure (`none`), which only matters for a `parseStep` that fails
to consume input — the nom record parsers always consume at least the line
terminator. -/
def parseRecordsLoop (p : TidStore → List Nat → Option (BedRec × List Nat × TidStore)) :
    Nat → TidStore → List Nat → Option (List BedRec × TidStore)
  | 0, _, _ => none
  | fuel + 1, st, cursor =>
    if cursor.isEmpty then some ([], st)
    else
      match p st cursor with
      | none => none
      | some (rec, rest, st2) =>
        match parseRecordsLoop p fuel st2 rest with
        | none => none
        | some (recs, st3) => some (rec :: recs, st3)

/-- `Reader::parse_records_from_bytes`: clear the output and fill it with
every record parsed from `bytes` (the returned list replaces the caller's
collection). -/
def parse_records_from_bytes (m : BedReaderModel) (bytes : List Nat) :
    Option (List BedRec × TidStore) :=
  parseRecordsLoop m.parseStep (bytes.length + 1) m.store bytes

/-- The `out.retain(..)` predicate of `Reader::read_lines_in_tid_region`:
`rec.tid == tid_id && rec.start < end && rec.end > start`. -/
def regionPred (tidId start stop : Nat) (r : BedRec) : Bool :=
  (r.tid == tidId) && decide (r.start < stop) && decide (r.stop > start)

/-- Embedding of `Reader::read_lines_in_tid` (src/bed/reader.rs).  The outer
`none` models the panic inside `offsets_for_tid` (out-of-bounds reference
index); `some` carries the source's `Result`.  Note the early
`return Ok(())` when the gathered bytes are empty: the caller's collection
`out` is returned unchanged, NOT cleared. -/
def read_lines_in_tid (m : BedReaderModel) (tid : String) (out : List BedRec) :
    Option (RResult (List BedRec)) :=
  if m.isPlain then some (.error .PlainBedRegion)
  else
    match m.index with
    | none => some (.error .TabixNotOpen)
    | some idx =>
      match offsets_for_tid idx tid with
      | none => none
      | some none => some (.ok [])
      | some (some ranges) =>
        let bytes := m.fetchBytes ranges
        if bytes.isEmpty then some (.ok out)
        else
          match parse_records_from_bytes m bytes with
          | none => some (.error .BedMismatch)
          | some (recs, _) => some (.ok recs)

/-- Embedding of `Reader::read_lines_in_tid_region` (src/bed/reader.rs).
After parsing, the queried name is looked up in the resolver state left by
parsing (`r.find(tid)`), failing with `BedFormat` when absent, and the
output is retained by `regionPred`.  The empty-bytes early `return Ok(())`
skips the clear, the lookup and the retain. -/
def read_lines_in_tid_region (m : BedReaderModel) (tid : String)
    (start stop : Nat) (out : List BedRec) :
    Option (RResult (List BedRec)) :=
  if m.isPlain then some (.error .PlainBedRegion)
  else
    match m.index with
    | none => some (.error .TabixNotOpen)
    | some idx =>
      match offsets_for_tid_region idx tid start stop with
      | none => none
      | some none => some (.ok [])
      | some (some ranges) =>
        let bytes := m.fetchBytes ranges
        if bytes.isEmpty then some (.ok out)
        else
          match parse_records_from_bytes m bytes with
          | none => some (.error .BedMismatch)
          | some (recs, st2) =>
            match st2.find tid with
            | none => some (.error .BedFormat)
            | some tidId => some (.ok (recs.filter (regionPred tidId start stop)))

theorem position_eq_none {x : String} {l : List String} :
    position x l = none ↔ x ∉ l := by
  induction l with
  | nil => simp [position]
  | cons a t ih =>
    rw [position]
    by_cases hax : a = x
    · subst hax
      simp
    · rw [if_neg hax, List.mem_cons]
      constructor
      · intro h
        rcases hpos : position x t with _ | v
        · push_neg
          exact ⟨fun he => hax he.symm, ih.mp hpos⟩
        · rw [hpos] at h
          simp at h
      · intro h
        push_neg at h
        rw [ih.mpr h.2]
        rfl

/-- C6: `read_region`/`read_all_in_ref` fail with `PlainBedRegion` on a
plain-text container; fail with `TabixNotOpen` on a BGZF container without
an index; and succeed with a cleared, empty output when the queried refname
is absent from the index's name set. -/
theorem read_region_guards (m : BedReaderModel) (tid : String) (start stop : Nat)
    (out : List BedRec) :
    (m.isPlain = true →
      read_lines_in_tid m tid out = some (.error .PlainBedRegion) ∧
      read_lines_in_tid_region m tid start stop out = some (.error .PlainBedRegion)) ∧
    (m.isPlain = false → m.index = none →
      read_lines_in_tid m tid out = some (.error .TabixNotOpen) ∧
      read_lines_in_tid_region m tid start stop out = some (.error .TabixNotOpen)) ∧
    (∀ idx, m.isPlain = false → m.index = some idx → tid ∉ idx.seqnames →
      read_lines_in_tid m tid out = some (.ok []) ∧
      read_lines_in_tid_region m tid start stop out = some (.ok [])) := by
  refine ⟨?_, ?_, ?_⟩
  · intro h
    constructor <;> simp [read_lines_in_tid, read_lines_in_tid_region, h]
  · intro h hidx
    constructor <;> simp [read_lines_in_tid, read_lines_in_tid_region, h, hidx]
  · intro idx h hidx hmem
    have hpos : position tid idx.seqnames = none := position_eq_none.mpr hmem
    have h1 : offsets_for_tid idx tid = some none := by
      unfold offsets_for_tid
      rw [hpos]
    have h2 : offsets_for_tid_region idx tid start stop = some none := by
      unfold offsets_for_tid_region
      rw [hpos]
    constructor <;>
      simp [read_lines_in_tid, read_lines_in_tid_region, h, hidx, h1, h2]

/-- A plain-text reader model. -/
def mPlain : BedReaderModel := ⟨true, none, fun _ => [], ⟨[]⟩, fun _ _ => none⟩

/-- A BGZF reader model with no index. -/
def mNoIdx : BedReaderModel := ⟨false, none, fun _ => [], ⟨[]⟩, fun _ _ => none⟩

/-- A loaded index knowing only `chr1`, whose reference carries no bins. -/
def idxNoBins : TabixReader := ⟨⟨1, 1, 2, 3, 0, 0⟩, ["chr1"], [⟨[]⟩]⟩

/-- A BGZF reader model over `idxNoBins` whose candidate chunks always decode
to zero bytes. -/
def mStale : BedReaderModel := ⟨false, some idxNoBins, fun _ => [], ⟨[]⟩, fun _ _ => none⟩

/-- A record left in the caller's buffer by a previous use. -/
def staleRec : BedRec := ⟨0, 5, 6⟩

/-- Witness for C6 at the three concrete reader states. -/
theorem read_region_guards_witness :
    read_lines_in_tid mPlain "chrX" [] = some (.error .PlainBedRegion) ∧
    read_lines_in_tid_region mNoIdx "chrX" 0 1 [] = some (.error .TabixNotOpen) ∧
    read_lines_in_tid mStale "chrX" [] = some (.ok []) :=
  ⟨((read_region_guards mPlain "chrX" 0 1 []).1 rfl).1,
   ((read_region_guards mNoIdx "chrX" 0 1 []).2.1 rfl rfl).2,
   ((read_region_guards mStale "chrX" 0 1 []).2.2 idxNoBins rfl rfl (by decide)).1⟩

/-- C2: FALSE as stated — a successful `read_region` call need not leave
only predicate-satisfying records from the candidate chunks: when the
candidate chunks decode to zero bytes the source returns `Ok(())` early
without clearing or filtering, so a stale record violating
`rec.start < end` survives in the output. -/
theorem read_region_stale_output :
    read_lines_in_tid_region mStale "chr1" 0 1 [staleRec] = some (.ok [staleRec]) ∧
    ¬ (staleRec.start < 1) := by
  decide

/-- C2 (amended): on every successful `read_region` call whose candidate
chunks decode to at least one byte, the output is exactly the records parsed
from the candidate chunks filtered by
`tid == tid_id && start < end_query && end > start_query` — sound and
complete; when the chunks decode to zero bytes the call succeeds leaving the
caller's collection untouched (see the counterexample). -/
theorem read_region_filter (m : BedReaderModel) (tid : String) (start stop : Nat)
    (out : List BedRec) (idx : TabixReader) (ranges : List (Nat × Nat))
    (recs : List BedRec) (st2 : TidStore) (tidId : Nat)
    (h1 : m.isPlain = false) (h2 : m.index = some idx)
    (h3 : offsets_for_tid_region idx tid start stop = some (some ranges))
    (h4 : m.fetchBytes ranges ≠ [])
    (h5 : parse_records_from_bytes m (m.fetchBytes ranges) = some (recs, st2))
    (h6 : st2.find tid = some tidId) :
    read_lines_in_tid_region m tid start stop out
      = some (.ok (recs.filter (regionPred tidId start stop))) ∧
    ∀ r, (r ∈ recs.filter (regionPred tidId start stop) ↔
      r ∈ recs ∧ r.tid = tidId ∧ r.start < stop ∧ r.stop > start) := by
  have h4b : (m.fetchBytes ranges).isEmpty = false := by
    cases hfb : m.fetchBytes ranges with
    | nil => exact absurd hfb h4
    | cons a l => rfl
  constructor
  · simp [read_lines_in_tid_region, h1, h2, h3, h4b, h5, h6]
  · intro r
    simp [List.mem_filter, regionPred, and_assoc]

/-- The store state left behind by `parseStepC2w` (it interned `chr1`). -/
def storeC2w : TidStore := ⟨["chr1"]⟩

/-- A loaded index: `chr1` with bin 0 covering chunk `[0, 10)`. -/
def idxC2w : TabixReader := ⟨⟨1, 1, 2, 3, 0, 0⟩, ["chr1"], [⟨[(0, ⟨[(0, 10)]⟩)]⟩]⟩

/-- A reader model whose chunks decode to one byte parsing to the single
record `chr1 2 4` (interning `chr1` into the resolver). -/
def mC2w : BedReaderModel :=
  ⟨false, some idxC2w, fun _ => [1], ⟨[]⟩,
    fun _ c =>
      match c with
      | [] => none
      | _ :: rest => some (⟨0, 2, 4⟩, rest, storeC2w)⟩

/-- Witness for C2 (amended) at the concrete reader `mC2w`. -/
theorem read_region_filter_witness :
    read_lines_in_tid_region mC2w "chr1" 0 5 [] = some (.ok [⟨0, 2, 4⟩]) := by
  have h := read_region_filter mC2w "chr1" 0 5 [] idxC2w [(0, 10)] [⟨0, 2, 4⟩] storeC2w 0
    rfl rfl (by decide) (by decide) (by decide) (by decide)
  rw [h.1]
  decide

/-- C9: FALSE as stated — `read_all_in_ref` does not clear the caller's
collection when the candidate chunks decode to zero bytes: the early
`return Ok(())` precedes `parse_records_from_bytes` (which performs the
clear), so a record from a previous use of the buffer survives a successful
return. -/
theorem read_all_stale_output :
    read_lines_in_tid mStale "chr1" [staleRec] = some (.ok [staleRec]) ∧
    [staleRec] ≠ ([] : List BedRec) := by
  decide

/-- C9 (amended): `read_region`/`read_all_in_ref` replace the caller's
collection on every success path except one — an absent refname yields a
cleared empty output, and whenever the candidate chunks decode to at least
one byte the returned collection is exactly the records produced by this
call (parsed from the chunk bytes, filtered for region queries),
independent of the collection's previous contents; but when the chunks
decode to zero bytes the call succeeds returning the collection untouched. -/
theorem scratch_clear_amended (m : BedReaderModel) (tid : String) (start stop : Nat)
    (out : List BedRec) (idx : TabixReader)
    (h1 : m.isPlain = false) (h2 : m.index = some idx) :
    (tid ∉ idx.seqnames →
      read_lines_in_tid m tid out = some (.ok []) ∧
      read_lines_in_tid_region m tid start stop out = some (.ok [])) ∧
    (∀ ranges recs st2,
      offsets_for_tid idx tid = some (some ranges) →
      m.fetchBytes ranges ≠ [] →
      parse_records_from_bytes m (m.fetchBytes ranges) = some (recs, st2) →
      read_lines_in_tid m tid out = some (.ok recs)) ∧
    (∀ ranges recs st2 tidId,
      offsets_for_tid_region idx tid start stop = some (some ranges) →
      m.fetchBytes ranges ≠ [] →
      parse_records_from_bytes m (m.fetchBytes ranges) = some (recs, st2) →
      st2.find tid = some tidId →
      read_lines_in_tid_region m tid start stop out
        = some (.ok (recs.filter (regionPred tidId start stop)))) ∧
    (∀ ranges,
      offsets_for_tid idx tid = some (some ranges) →
      m.fetchBytes ranges = [] →
      read_lines_in_tid m tid out = some (.ok out)) := by
  refine ⟨?_, ?_, ?_, ?_⟩
  · intro hmem
    exact (read_region_guards m tid start stop out).2.2 idx h1 h2 hmem
  · intro ranges recs st2 h3 h4 h5
    have h4b : (m.fetchBytes ranges).isEmpty = false := by
      cases hfb : m.fetchBytes ranges with
      | nil => exact absurd hfb h4
      | cons a l => rfl
    simp [read_lines_in_tid, h1, h2, h3, h4b, h5]
  · intro ranges recs st2 tidId h3 h4 h5 h6
    exact (read_region_filter m tid start stop out idx ranges recs st2 tidId
      h1 h2 h3 h4 h5 h6).1
  · intro ranges h3 h4
    have h4b : (m.fetchBytes ranges).isEmpty = true := by
      rw [h4]
      rfl
    simp [read_lines_in_tid, h1, h2, h3, h4b, h4]

/-- Witness for C9 (amended): an absent refname clears the buffer, and a
populated buffer is replaced by the freshly parsed records. -/
theorem scratch_clear_amended_witness :
    read_lines_in_tid mC2w "chrX" [staleRec] = some (.ok []) ∧
    read_lines_in_tid mC2w "chr1" [staleRec] = some (.ok [⟨0, 2, 4⟩]) :=
  ⟨((scratch_clear_amended mC2w "chrX" 0 1 [staleRec] idxC2w rfl rfl).1 (by decide)).1,
   (scratch_clear_amended mC2w "chr1" 0 1 [staleRec] idxC2w rfl rfl).2.1
     [(0, 10)] [⟨0, 2, 4⟩] storeC2w (by decide) (by decide) (by decide)⟩

/-- C10: in `read_lines_in_tid_region`, after parsing the candidate chunks,
a queried refname that resolves to no symbol in the reader's store makes the
call fail with `BedFormat` instead of succeeding with an empty result. -/
theorem read_region_find_failure (m : BedReaderModel) (tid : String)
    (start stop : Nat) (out : List BedRec) (idx : TabixReader)
    (ranges : List (Nat × Nat)) (recs : List BedRec) (st2 : TidStore)
    (h1 : m.isPlain = false) (h2 : m.index = some idx)
    (h3 : offsets_for_tid_region idx tid start stop = some (some ranges))
    (h4 : m.fetchBytes ranges ≠ [])
    (h5 : parse_records_from_bytes m (m.fetchBytes ranges) = some (recs, st2))
    (h6 : st2.find tid = none) :
    read_lines_in_tid_region m tid start stop out = some (.error .BedFormat) := by
  have h4b : (m.fetchBytes ranges).isEmpty = false := by
    cases hfb : m.fetchBytes ranges with
    | nil => exact absurd hfb h4
    | cons a l => rfl
  simp [read_lines_in_tid_region, h1, h2, h3, h4b, h5, h6]

/-- The store state left behind by `mC10`'s parse step: only `chr2` was
interned. -/
def storeC10 : TidStore := ⟨["chr2"]⟩

/-- A reader model whose index knows `chr1` but whose single parsed record
interned only `chr2`: the post-parse lookup of `chr1` fails. -/
def mC10 : BedReaderModel :=
  ⟨false, some idxC2w, fun _ => [1], ⟨[]⟩,
    fun _ c =>
      match c with
      | [] => none
      | _ :: rest => some (⟨7, 2, 4⟩, rest, storeC10)⟩

/-- Witness for C10: querying `chr1` (present in the index, absent from the
post-parse store) errors with `BedFormat`. -/
theorem read_region_find_failure_witness :
    read_lines_in_tid_region mC10 "chr1" 0 5 [] = some (.error .BedFormat) :=
  read_region_find_failure mC10 "chr1" 0 5 [] idxC2w [(0, 10)] [⟨7, 2, 4⟩] storeC10
    rfl rfl (by decide) (by decide) (by decide) (by decide)

/-! ## Browser metadata (`parse_browser_line`, src/bed/parser.rs, and
`Reader::read_line_with_meta`, src/bed/reader.rs) -/

/-- `str::starts_with`. -/
def strStartsWith (s pre : String) : Bool := pre.data.isPrefixOf s.data

/-- `line.trim().is_empty()`. -/
def isBlank (s : String) : Bool := (trimChars s.data).isEmpty

/-- nom `take_while1`: longest non-empty prefix satisfying `p`, or fail. -/
def takeWhile1 (p : Char → Bool) (l : List Char) : Option (List Char × List Char) :=
  if (l.takeWhile p).isEmpty then none else some (l.takeWhile p, l.dropWhile p)

/-- nom `tag`: strip an exact prefix, or fail. -/
def tagTok (pre : List Char) (l : List Char) : Option (List Char) :=
  if pre.isPrefixOf l then some (l.drop pre.length) else none

/-- nom `space1`: one or more of space/tab. -/
def isSpaceTab (c : Char) : Bool := c = ' ' || c = '\t'

/-- `is_key_char` (src/bed/parser.rs): alphanumeric, `_` or `-` (ASCII). -/
def isKeyChar (c : Char) : Bool :=
  c.isAlpha || c.isDigit || c = '_' || c = '-'

/-- `parse_value` (src/bed/parser.rs): a `"`-quoted value, else the longest
non-empty run of non-whitespace characters. -/
def parse_value (l : List Char) : Option (List Char × List Char) :=
  match l with
  | '"' :: rest =>
    (match takeWhile1 (fun c => !(c = '"')) rest with
     | some (v, '"' :: rest2) => some (v, rest2)
     | _ => takeWhile1 (fun c => !(isRustWhitespace c)) l)
  | _ => takeWhile1 (fun c => !(isRustWhitespace c)) l

/-- `parse_browser_pair` (src/bed/parser.rs): a key, one or more
spaces/tabs, then a value (with `trim_start_matches('=')` when the
post-space input begins with `=`); a missing value falls back to the empty
string. -/
def parse_browser_pair (l : List Char) : Option ((String × String) × List Char) := do
  let (key, l1) ← takeWhile1 isKeyChar l
  let (_, l2) ← takeWhile1 isSpaceTab l1
  match parse_value l2 with
  | some (v, rest) =>
    if l2.head? = some '=' then
      some ((String.mk key, String.mk (v.dropWhile (fun c => c = '='))), rest)
    else some ((String.mk key, String.mk v), rest)
  | none => some ((String.mk key, ""), l2)

/-- `BrowserMeta` (attribute map).  The source's `HashMap<String, String>`
is modelled as an association list with overwriting insert (first-insertion
iteration order; no theorem depends on the order of distinct keys). -/
structure BrowserMeta where
  attrs : List (String × String)
deriving DecidableEq, Repr

/-- `HashMap::insert` on the attribute map. -/
def attrsInsert (m : List (String × String)) (k v : String) : List (String × String) :=
  match m with
  | [] => [(k, v)]
  | (k0, v0) :: t => if k0 = k then (k, v) :: t else (k0, v0) :: attrsInsert t k v

/-- `existing.attrs.extend(parsed.attrs)`. -/
def extendAttrs (e p : BrowserMeta) : BrowserMeta :=
  ⟨p.attrs.foldl (fun m kv => attrsInsert m kv.1 kv.2) e.attrs⟩

/-- The `while !input.trim().is_empty()` loop of `parse_browser_line`:
insert pairs until the rest is blank or a pair fails to parse; after each
pair the input is `trim_start`ed.  Fuel bounds the loop through input
consumption (every parsed pair consumes at least two characters). -/
def browserLoop : Nat → List Char → List (String × String) → List (String × String)
  | 0, _, attrs => attrs
  | fuel + 1, input, attrs =>
    if (trimChars input).isEmpty then attrs
    else
      match parse_browser_pair input with
      | some ((k, v), rest) =>
        browserLoop fuel (rest.dropWhile isRustWhitespace) (attrsInsert attrs k v)
      | none => attrs

/-- Embedding of `parse_browser_line` (src/bed/parser.rs). -/
def parse_browser_line (s : String) : Option BrowserMeta := do
  let l1 ← tagTok "browser".data s.data
  let (_, l2) ← takeWhile1 isSpaceTab l1
  some ⟨browserLoop (l2.length + 1) l2 []⟩

/-- The reader state touched by `Reader::read_line_with_meta`: the current
track (abstracted to the raw track line — C8 does not inspect track
contents), the last browser block, and the `reset_browser` flag. -/
structure LineState where
  track : Option String
  lastBrowser : Option BrowserMeta
  resetBrowser : Bool
deriving DecidableEq, Repr

/-- The state as `Reader::from_reader` initializes it: no track, no browser
block, `reset_browser: true`. -/
def initLineState : LineState := ⟨none, none, true⟩

/-- The browser branch of `Reader::read_line_with_meta`
(src/bed/reader.rs:529-556): on `reset_browser` start a new block;
otherwise merge into the existing block (or start one when none);
`reset_browser` becomes false. -/
def browserStep (st : LineState) (parsed : BrowserMeta) : LineState :=
  if st.resetBrowser then ⟨st.track, some parsed, false⟩
  else
    match st.lastBrowser with
    | some existing => ⟨st.track, some (extendAttrs existing parsed), false⟩
    | none => ⟨st.track, some parsed, false⟩

/-- Embedding of `Reader::read_line_with_meta` (src/bed/reader.rs) over the
line-extracted view of the stream.  `parseTrack` abstracts
`parse_track_line` (its result is only stored), `parseData` abstracts the
generic `F::parse_into` record parse.  A returned record carries the
current track and the browser block delivered via `*browser_meta`; the
state records `reset_browser := true` set by the data branch. -/
def read_line_with_meta (parseTrack : String → Option String)
    (parseData : String → Option BedRec) :
    Nat → List String → LineState →
    RResult (Option ((Option String × BedRec × Option BrowserMeta) × List String × LineState))
  | 0, _, _ => .error .BedFormat
  | fuel + 1, lines, st =>
    match lines with
    | [] => .ok none
    | line :: rest =>
      if isBlank line then read_line_with_meta parseTrack parseData fuel rest st
      else if strStartsWith line "track" then
        match parseTrack line with
        | none => .error .BedFormat
        | some t => read_line_with_meta parseTrack parseData fuel rest ⟨some t, st.lastBrowser, st.resetBrowser⟩
      else if strStartsWith line "browser" then
        match parse_browser_line line with
        | none => .error .BedFormat
        | some parsed =>
          read_line_with_meta parseTrack parseData fuel rest (browserStep st parsed)
      else
        match parseData line with
        | none => .error .BedMismatch
        | some rec =>
          .ok (some ((st.track, rec, st.lastBrowser), rest, ⟨st.track, st.lastBrowser, true⟩))

/-- Drive `read_line_with_meta` to the end of the stream, collecting each
record with the browser block delivered alongside it. -/
def readAllWithMeta (parseTrack : String → Option String)
    (parseData : String → Option BedRec) :
    Nat → List String → LineState → RResult (List (BedRec × Option BrowserMeta))
  | 0, _, _ => .error .BedFormat
  | fuel + 1, lines, st =>
    match read_line_with_meta parseTrack parseData (lines.length + 1) lines st with
    | .error e => .error e
    | .ok none => .ok []
    | .ok (some ((_, rec, bm), rest, st2)) =>
      match readAllWithMeta parseTrack parseData fuel rest st2 with
      | .error e => .error e
      | .ok l => .ok ((rec, bm) :: l)

/-- The scenario input of C8: `browser a 1`, a data line, `browser b 2`, a
data line. -/
def browserLinesC8 : List String :=
  ["browser a 1\n", "chr1\t0\t1\n", "browser b 2\n", "chr1\t2\t3\n"]

/-- A concrete record parse for the two data lines of the C8 scenario
(instantiating the abstract `parseData`). -/
def parseDataC8 (s : String) : Option BedRec :=
  if s = "chr1\t0\t1\n" then some ⟨0, 0, 1⟩
  else if s = "chr1\t2\t3\n" then some ⟨0, 2, 3⟩
  else none

theorem read_line_with_meta_reset (parseTrack : String → Option String)
    (parseData : String → Option BedRec) :
    ∀ (fuel : Nat) (lines : List String) (st : LineState) r rest st2,
      read_line_with_meta parseTrack parseData fuel lines st = .ok (some (r, rest, st2)) →
      st2.resetBrowser = true := by
  intro fuel
  induction fuel with
  | zero => intro lines st r rest st2 h; simp [read_line_with_meta] at h
  | succ n ih =>
    intro lines st r rest st2 h
    match lines with
    | [] => simp [read_line_with_meta] at h
    | line :: tl =>
      rw [read_line_with_meta] at h
      by_cases hb : isBlank line = true
      · rw [if_pos hb] at h
        exact ih tl st r rest st2 h
      · rw [if_neg hb] at h
        by_cases ht : strStartsWith line "track" = true
        · rw [if_pos ht] at h
          cases hpt : parseTrack line with
          | none => rw [hpt] at h; cases h
          | some t =>
            rw [hpt] at h
            exact ih tl _ r rest st2 h
        · rw [if_neg ht] at h
          by_cases hbr : strStartsWith line "browser" = true
          · rw [if_pos hbr] at h
            cases hpb : parse_browser_line line with
            | none => rw [hpb] at h; cases h
            | some p =>
              rw [hpb] at h
              exact ih tl _ r rest st2 h
          · rw [if_neg hbr] at h
            cases hpd : parseData line with
            | none => rw [hpd] at h; cases h
            | some rec =>
              rw [hpd] at h
              cases h
              rfl

/-- C8: consecutive `browser` lines merge into one block, a data line closes
the current block (`reset_browser := true`, so the next `browser` line after
a data line replaces rather than merges), and on the scenario
`browser a 1 / data / browser b 2 / data` the first record is delivered with
`{a→1}` and the second with exactly `{b→2}`. -/
theorem browser_meta_lifecycle :
    (∀ (st : LineState) (m p : BrowserMeta), st.resetBrowser = false →
      st.lastBrowser = some m →
      browserStep st p = ⟨st.track, some (extendAttrs m p), false⟩) ∧
    (∀ (st : LineState) (p : BrowserMeta), st.resetBrowser = true →
      browserStep st p = ⟨st.track, some p, false⟩) ∧
    (∀ (parseTrack : String → Option String) (parseData : String → Option BedRec)
        (fuel : Nat) (lines : List String) (st : LineState) r rest st2,
      read_line_with_meta parseTrack parseData fuel lines st = .ok (some (r, rest, st2)) →
      st2.resetBrowser = true) ∧
    readAllWithMeta (fun _ => some "") parseDataC8 5 browserLinesC8 initLineState
      = .ok [(⟨0, 0, 1⟩, some ⟨[("a", "1")]⟩), (⟨0, 2, 3⟩, some ⟨[("b", "2")]⟩)] := by
  refine ⟨?_, ?_, ?_, ?_⟩
  · intro st m p hreset hlast
    unfold browserStep
    rw [hreset, hlast]
    simp
  · intro st p hreset
    unfold browserStep
    rw [hreset]
    simp
  · exact read_line_with_meta_reset
  · decide

/-- Witness for C8: the merge and replace step facts instantiated at
concrete states. -/
theorem browser_meta_lifecycle_witness :
    browserStep ⟨none, some ⟨[("a", "1")]⟩, false⟩ ⟨[("c", "3")]⟩
      = ⟨none, some ⟨[("a", "1"), ("c", "3")]⟩, false⟩ ∧
    browserStep ⟨none, some ⟨[("a", "1")]⟩, true⟩ ⟨[("b", "2")]⟩
      = ⟨none, some ⟨[("b", "2")]⟩, false⟩ := by
  constructor
  · rw [browser_meta_lifecycle.1 ⟨none, some ⟨[("a", "1")]⟩, false⟩ ⟨[("a", "1")]⟩ ⟨[("c", "3")]⟩ rfl rfl]
    decide
  · rw [browser_meta_lifecycle.2.1 ⟨none, some ⟨[("a", "1")]⟩, true⟩ ⟨[("b", "2")]⟩ rfl]

/-! ## Auto-detection and the plain-text open path
(`detect_format_from_reader`, src/bed/parser.rs; `Reader::read_kind`,
src/bed/reader.rs; BED3 record grammar, src/bed/parser.rs) -/

/-- Whitespace tokenization helper: split on runs of Rust whitespace,
carrying the current (reversed) token. -/
def wsTokensAux : List Char → Option (List Char) → List (List Char)
  | [], none => []
  | [], some tok => [tok.reverse]
  | c :: t, none =>
    if isRustWhitespace c then wsTokensAux t none else wsTokensAux t (some [c])
  | c :: t, some tok =>
    if isRustWhitespace c then tok.reverse :: wsTokensAux t none
    else wsTokensAux t (some (c :: tok))

/-- The whitespace-field count of a line. -/
def fieldCount (s : String) : Nat := (wsTokensAux s.data none).length

/-- Modelled from the spec: `BedFormat::try_from(&Vec<String>)` is not under
src/ (only its callers are).  Per §4.6, the first non-blank, non-`track`,
non-`browser` line of the accumulated lines determines the sub-format by its
whitespace-field count (3/4/5/6/12/18, here represented by the count
itself); any other count, or no data line yet, fails. -/
def bedFormatTryFrom (accumulated : List String) : Option Nat :=
  match accumulated.find? (fun s =>
    !(isBlank s) && !(strStartsWith s "track") && !(strStartsWith s "browser")) with
  | none => none
  | some line =>
    let n := fieldCount line
    if n = 3 ∨ n = 4 ∨ n = 5 ∨ n = 6 ∨ n = 12 ∨ n = 18 then some n else none

/-- Embedding of `detect_format_from_reader` (src/bed/parser.rs) over the
line view of the stream: read up to `max_lines` lines FROM THE READER
(consuming them), accumulate, and return the first successful
`BedFormat::try_from`, together with the stream as the reader leaves it. -/
def detect_format_from_reader : Nat → List String → List String →
    Option (Nat × List String)
  | 0, _, _ => none
  | fuel + 1, lines, acc =>
    match lines with
    | [] => none
    | line :: rest =>
      match bedFormatTryFrom (acc ++ [line]) with
      | some fmt => some (fmt, rest)
      | none => detect_format_from_reader fuel rest (acc ++ [line])

/-- The plain-text branch of `Reader::read_kind` (src/bed/reader.rs):
`detect_format_from_reader(name, &mut reader, 10)` probes the actual reader
and the branch returns `FileKind::Plain(reader)` WITHOUT seeking back to the
start — the probed lines stay consumed.  (The BGZF branch, by contrast,
probes a buffered copy of the first block and seeks to 0.) -/
def read_kind_plain (lines : List String) : Option (Nat × List String) :=
  detect_format_from_reader 10 lines []

/-- nom `line_ending`: `\n` or `\r\n`. -/
def lineEnding : List Char → Option (List Char)
  | '\n' :: r => some r
  | '\r' :: '\n' :: r => some r
  | _ => none

/-- `parse_u64` (src/bed/parser.rs): one or more ASCII digits with checked
(`u64`) accumulation; a value at or beyond `2^64` fails, exactly when some
intermediate `checked_mul`/`checked_add` would fail. -/
def parseU64ch (l : List Char) : Option (Nat × List Char) :=
  match takeWhile1 (fun c => c.isDigit) l with
  | none => none
  | some (ds, rest) =>
    let v := ds.foldl (fun acc c => acc * 10 + (c.toNat - 48)) 0
    if v < 2 ^ 64 then some (v, rest) else none

/-- `is_not " \t\r\n"` / `multispace1` character class. -/
def isMultispace (c : Char) : Bool := c = ' ' || c = '\t' || c = '\r' || c = '\n'

/-- Embedding of `parse_bed3_record` (src/bed/parser.rs) in the
non-interning configuration (`Tid = String`, `to_symbol_id` is the
identity): name, whitespace, `u64` start, whitespace, `u64` end, line
ending. -/
def parse_bed3 (l : List Char) : Option ((String × Nat × Nat) × List Char) := do
  let (tid, l) ← takeWhile1 (fun c => !(isMultispace c)) l
  let (_, l) ← takeWhile1 isMultispace l
  let (s, l) ← parseU64ch l
  let (_, l) ← takeWhile1 isMultispace l
  let (e, l) ← parseU64ch l
  let l ← lineEnding l
  some ((String.mk tid, s, e), l)

/-- The `read_next` loop of the plain BED3 reader (`Reader::read_line` +
`read_line_io`, src/bed/reader.rs) run to EOF: skip blank lines, `track`
and `browser` lines (their parse into reader state does not affect the
record sequence), parse every data line as BED3, surface parse failures.
Fuel is the line count (each iteration consumes one line). -/
def plainReadAllBed3 : Nat → List String → RResult (List (String × Nat × Nat))
  | 0, _ => .error .BedFormat
  | fuel + 1, lines =>
    match lines with
    | [] => .ok []
    | line :: rest =>
      if isBlank line then plainReadAllBed3 fuel rest
      else if strStartsWith line "track" then plainReadAllBed3 fuel rest
      else if strStartsWith line "browser" then plainReadAllBed3 fuel rest
      else
        match parse_bed3 line.data with
        | none => .error .BedMismatch
        | some (rec, _) =>
          match plainReadAllBed3 fuel rest with
          | .ok recs => .ok (rec :: recs)
          | .error e => .error e

/-- Open on a plain-text source followed by reading every record: detection
probes (and consumes) lines, then `read_next` runs on the stream as the
plain branch of `read_kind` leaves it. -/
def openAndReadAllPlainBed3 (lines : List String) :
    Option (Nat × RResult (List (String × Nat × Nat))) :=
  match read_kind_plain lines with
  | none => none
  | some (fmt, remaining) =>
    some (fmt, plainReadAllBed3 (remaining.length + 1) remaining)

/-- The three-line BED3 example of the spec. -/
def bed3LinesC5 : List String :=
  ["chr1\t10\t20\n", "chr1\t30\t40\n", "chr2\t5\t15\n"]

/-- C5: FALSE of the code on plain-text sources — the plain branch of
`read_kind` never seeks back after probing, so detection consumes the first
data line and `read_next` starts at the SECOND record: on the three-line
BED3 example the reader yields `(chr1,30,40), (chr2,5,15)` instead of all
three records. -/
theorem plain_detect_consumes_first_line :
    read_kind_plain bed3LinesC5 = some (3, ["chr1\t30\t40\n", "chr2\t5\t15\n"]) ∧
    openAndReadAllPlainBed3 bed3LinesC5
      = some (3, .ok [("chr1", 30, 40), ("chr2", 5, 15)]) ∧
    [("chr1", (30 : Nat), (40 : Nat)), ("chr2", 5, 15)]
      ≠ [("chr1", 10, 20), ("chr1", 30, 40), ("chr2", 5, 15)] := by
  refine ⟨?_, ?_, ?_⟩ <;> decide

end Sandman
